import Mathlib

set_option linter.unusedVariables false

namespace Synacor

/-!
Shallow embedding of the synacor-rs virtual machine and debugger core
(src/memory.rs, src/op_code.rs, src/machine.rs, src/debugger/mod.rs,
src/debugger/breakpoint.rs).

Machine words are `Nat` with the u16 wrap `% 65536` applied exactly where
the source converts or stores a `u16`.  Memory is the byte vector backing
the `Cursor<Vec<u8>>`: a byte store `Nat → Nat` (positions beyond the
initial contents read 0, matching the zero fill of `Vec::resize` and of
cursor writes past the end), the current byte length of the vector, the
`max_used_addr` watermark (a word index) and the cursor byte position,
which doubles as the instruction pointer.  Fallible operations return
`Except VmError`; a Rust panic (the unguarded `%` by zero in the `Mod`
instruction, or a slice-length mismatch) is modelled as `Option.none`.
-/

/-- Error kinds of errors.rs (the error_chain kinds), plus `eof` for the
`std::io` unexpected-end-of-data error surfaced by cursor reads. -/
inductive VmError where
  | invalidMemorySize (n : Nat)
  | machineHalted
  | nonLiteralOpCode (r : Fin 8)
  | emptyStack
  | invalidAddr (n : Nat)
  | invalidRegister (n : Nat)
  | invalidValue (n : Nat)
  | invalidOpCode (n : Nat)
  | eof
  deriving DecidableEq, Repr

/-- memory.rs `Value`: an operand word, either a literal `≤ 32767` or a
reference to one of the eight registers (wire words 32768–32775). -/
inductive Value where
  | Literal (u : Nat)
  | FromRegister (r : Fin 8)
  deriving DecidableEq, Repr

/-- `Addr::from(u16)` keeps the u16 word index; we wrap into the u16 range. -/
def addrOfU16 (v : Nat) : Nat := v % 65536

/-- `Addr::from(u64)`, used by `Memory::ip()`: byte position divided by 2,
cast to u16. -/
def addrOfPos (p : Nat) : Nat := (p / 2) % 65536

/-- memory.rs `MAX_BYTES`. -/
def MAX_BYTES : Nat := 65536

/-- memory.rs `Memory`: the bytes behind the cursor, the vector length, the
`max_used_addr` watermark (word index) and the cursor byte position. -/
structure Memory where
  data : Nat → Nat
  len : Nat
  maxUsed : Nat
  pos : Nat

/-- `Memory::new`: rejects images larger than 64 KiB or of odd size, sets
the watermark to `len/2 - 1` (Nat subtraction; the source would wrap an
empty image) and zero-pads the vector to `MAX_BYTES`. -/
def Memory.new (v : List Nat) : Except VmError Memory :=
  if MAX_BYTES < v.length ∨ v.length % 2 ≠ 0 then
    .error (.invalidMemorySize v.length)
  else
    .ok { data := fun i => v.getD i 0
          len := MAX_BYTES
          maxUsed := v.length / 2 - 1
          pos := 0 }

/-- `Memory::set_ip`: seek the cursor to byte position `addr * 2`. -/
def Memory.setIp (m : Memory) (a : Nat) : Memory := { m with pos := 2 * a }

/-- `Memory::ip()`: the cursor position as a word-index `Addr` (u16). -/
def Memory.ipWord (m : Memory) : Nat := addrOfPos m.pos

/-- `Memory::used_bytes`: `(max_used_addr + 1) * 2` in u16 arithmetic. -/
def Memory.usedBytes (m : Memory) : Nat := ((m.maxUsed + 1) % 65536 * 2) % 65536

/-- The little-endian word stored at word index `a`. -/
def Memory.wordAt (m : Memory) (a : Nat) : Nat := m.data (2 * a) + 256 * m.data (2 * a + 1)

/-- State-passing fallible computations over `Memory` (methods taking
`&mut self` and returning `Result`). -/
abbrev MemM (α : Type) := Memory → Except VmError α × Memory

def mpure {α : Type} (a : α) : MemM α := fun m => (.ok a, m)

def mthrow {α : Type} (e : VmError) : MemM α := fun m => (.error e, m)

def liftExcept {α : Type} (e : Except VmError α) : MemM α := fun m => (e, m)

def mbind {α β : Type} (x : MemM α) (f : α → MemM β) : MemM β := fun m =>
  match x m with
  | (.ok a, m2) => f a m2
  | (.error e, m2) => (.error e, m2)

/-- `read_u16::<LittleEndian>` on the cursor: two bytes from the current
position if available, advancing the cursor; end-of-data otherwise. -/
def Memory.readU16 : MemM Nat := fun m =>
  if m.pos + 2 ≤ m.len then
    (.ok (m.data m.pos + 256 * m.data (m.pos + 1)), { m with pos := m.pos + 2 })
  else
    (.error .eof, m)

/-- `Register::try_from(u16)`. -/
def registerTryFromU16 (u : Nat) : Except VmError (Fin 8) :=
  if u = 32768 then .ok 0
  else if u = 32769 then .ok 1
  else if u = 32770 then .ok 2
  else if u = 32771 then .ok 3
  else if u = 32772 then .ok 4
  else if u = 32773 then .ok 5
  else if u = 32774 then .ok 6
  else if u = 32775 then .ok 7
  else .error (.invalidRegister u)

/-- `Value::try_from(u16)`: literals `0..=32767`, register references
`32768..=32776` (32776 then fails inside `Register::try_from`), invalid
above. -/
def valueTryFromU16 (u : Nat) : Except VmError Value :=
  if u ≤ 32767 then .ok (.Literal u)
  else if u ≤ 32776 then (registerTryFromU16 u).map .FromRegister
  else .error (.invalidValue u)

def Memory.nextVal : MemM Value :=
  mbind Memory.readU16 fun u => liftExcept (valueTryFromU16 u)

def Memory.nextReg : MemM (Fin 8) :=
  mbind Memory.readU16 fun u => liftExcept (registerTryFromU16 u)

/-- `Memory::next_instr`: an opcode word must be a literal. -/
def Memory.nextInstr : MemM Nat :=
  mbind Memory.nextVal fun v =>
    match v with
    | .Literal i => mpure i
    | .FromRegister r => mthrow (.nonLiteralOpCode r)

/-- `Memory::read`: save the cursor, seek to `addr`, read one word, restore
the cursor (restore happens on the error path too). -/
def Memory.read (m : Memory) (a : Nat) : Except VmError Nat × Memory :=
  let ip0 := m.ipWord
  let r := Memory.readU16 (m.setIp a)
  (r.1, r.2.setIp ip0)

/-- `Memory::write`: save the cursor, seek to `addr`, write the word
little-endian (a cursor write past the end zero-fills and extends the
vector), grow the watermark, restore the cursor. -/
def Memory.write (m : Memory) (a : Nat) (v : Nat) : Memory :=
  let ip0 := m.ipWord
  let p := 2 * a
  { data := fun i => if i = p then v % 256 else if i = p + 1 then v / 256 % 256 else m.data i
    len := max m.len (p + 2)
    maxUsed := if a > m.maxUsed then a else m.maxUsed
    pos := 2 * ip0 }

/-- op_code.rs `OpCode`: the raw decoded instruction, operands still typed
as `Value`. -/
inductive OpCode where
  | Halt
  | Set (reg : Fin 8) (val : Value)
  | Push (val : Value)
  | Pop (reg : Fin 8)
  | Eq (reg : Fin 8) (val1 val2 : Value)
  | Gt (reg : Fin 8) (val1 val2 : Value)
  | Jmp (addr : Value)
  | Jt (cond addr : Value)
  | Jf (cond addr : Value)
  | Add (reg : Fin 8) (val1 val2 : Value)
  | Mult (reg : Fin 8) (val1 val2 : Value)
  | Mod (reg : Fin 8) (val1 val2 : Value)
  | And (reg : Fin 8) (val1 val2 : Value)
  | Or (reg : Fin 8) (val1 val2 : Value)
  | Not (reg : Fin 8) (val : Value)
  | Rmem (reg : Fin 8) (addr : Value)
  | Wmem (addr val : Value)
  | Call (addr : Value)
  | Ret
  | Out (c : Value)
  | In (reg : Fin 8)
  | Noop
  deriving DecidableEq, Repr

/-- Fetch helper for the reg-val-val opcodes. -/
def rrr (k : Fin 8 → Value → Value → OpCode) : MemM OpCode :=
  mbind Memory.nextReg fun r =>
    mbind Memory.nextVal fun v1 =>
      mbind Memory.nextVal fun v2 => mpure (k r v1 v2)

/-- The dispatch of `Memory::fetch_op` on the numeric opcode 0..21, each
variant reading its operand words. -/
def fetchDispatch (instr : Nat) : MemM OpCode :=
  if instr = 0 then mpure OpCode.Halt
    else if instr = 1 then
      mbind Memory.nextReg fun r => mbind Memory.nextVal fun v => mpure (OpCode.Set r v)
    else if instr = 2 then mbind Memory.nextVal fun v => mpure (OpCode.Push v)
    else if instr = 3 then mbind Memory.nextReg fun r => mpure (OpCode.Pop r)
    else if instr = 4 then rrr OpCode.Eq
    else if instr = 5 then rrr OpCode.Gt
    else if instr = 6 then mbind Memory.nextVal fun a => mpure (OpCode.Jmp a)
    else if instr = 7 then
      mbind Memory.nextVal fun c => mbind Memory.nextVal fun a => mpure (OpCode.Jt c a)
    else if instr = 8 then
      mbind Memory.nextVal fun c => mbind Memory.nextVal fun a => mpure (OpCode.Jf c a)
    else if instr = 9 then rrr OpCode.Add
    else if instr = 10 then rrr OpCode.Mult
    else if instr = 11 then rrr OpCode.Mod
    else if instr = 12 then rrr OpCode.And
    else if instr = 13 then rrr OpCode.Or
    else if instr = 14 then
      mbind Memory.nextReg fun r => mbind Memory.nextVal fun v => mpure (OpCode.Not r v)
    else if instr = 15 then
      mbind Memory.nextReg fun r => mbind Memory.nextVal fun a => mpure (OpCode.Rmem r a)
    else if instr = 16 then
      mbind Memory.nextVal fun a => mbind Memory.nextVal fun v => mpure (OpCode.Wmem a v)
    else if instr = 17 then mbind Memory.nextVal fun a => mpure (OpCode.Call a)
    else if instr = 18 then mpure OpCode.Ret
    else if instr = 19 then mbind Memory.nextVal fun c => mpure (OpCode.Out c)
    else if instr = 20 then mbind Memory.nextReg fun r => mpure (OpCode.In r)
    else if instr = 21 then mpure OpCode.Noop
    else mthrow (.invalidOpCode instr)

/-- `Memory::fetch_op`: read the opcode word at the cursor, then dispatch. -/
def Memory.fetchOp : MemM OpCode := mbind Memory.nextInstr fetchDispatch

/-- memory.rs `RegisterSet`: eight u16 registers, read at indices 0..7. -/
abbrev RegisterSet := Nat → Nat

/-- `RegisterSet::read`: resolve a `Value` through the register file. -/
def RegisterSet.read (regs : RegisterSet) (v : Value) : Nat :=
  match v with
  | .Literal u => u
  | .FromRegister r => regs r.val

/-- `RegisterSet::write_u16` (the stored value is a u16). -/
def RegisterSet.writeU16 (regs : RegisterSet) (r : Fin 8) (u : Nat) : RegisterSet :=
  fun i => if i = r.val then u % 65536 else regs i

/-- `RegisterSet::write_val`: resolve, then store. -/
def RegisterSet.writeVal (regs : RegisterSet) (r : Fin 8) (v : Value) : RegisterSet :=
  regs.writeU16 r (regs.read v)

/-- op_code.rs `DecodedOpCode`: the operand-resolved form: `Value`s became
u16 words, address operands became `Addr` word indices, `Out`'s character
became the resolved byte, and `Ret` carries the (unpopped) stack top. -/
inductive DecodedOpCode where
  | Halt
  | Set (reg : Fin 8) (val : Nat)
  | Push (val : Nat)
  | Pop (reg : Fin 8)
  | Eq (reg : Fin 8) (val1 val2 : Nat)
  | Gt (reg : Fin 8) (val1 val2 : Nat)
  | Jmp (addr : Nat)
  | Jt (cond addr : Nat)
  | Jf (cond addr : Nat)
  | Add (reg : Fin 8) (val1 val2 : Nat)
  | Mult (reg : Fin 8) (val1 val2 : Nat)
  | Mod (reg : Fin 8) (val1 val2 : Nat)
  | And (reg : Fin 8) (val1 val2 : Nat)
  | Or (reg : Fin 8) (val1 val2 : Nat)
  | Not (reg : Fin 8) (val : Nat)
  | Rmem (reg : Fin 8) (addr : Nat)
  | Wmem (addr val : Nat)
  | Call (addr : Nat)
  | Ret (addr : Option Nat)
  | Out (c : Nat)
  | In (reg : Fin 8)
  | Noop
  deriving DecidableEq, Repr

/-- `OpCode::decode(&self, registers, ret)`: resolve every operand through
the register file; `ret` is the stack top, passed without popping.  The
source's signature is fallible but every arm succeeds. -/
def OpCode.decode (op : OpCode) (regs : RegisterSet) (ret : Option Nat) :
    Except VmError DecodedOpCode :=
  .ok (match op with
    | .Halt => .Halt
    | .Out c => .Out (regs.read c % 256)
    | .Noop => .Noop
    | .Jmp a => .Jmp (addrOfU16 (regs.read a))
    | .Jt c a => .Jt (regs.read c) (addrOfU16 (regs.read a))
    | .Jf c a => .Jf (regs.read c) (addrOfU16 (regs.read a))
    | .Set r v => .Set r (regs.read v)
    | .Add r v1 v2 => .Add r (regs.read v1) (regs.read v2)
    | .Mult r v1 v2 => .Mult r (regs.read v1) (regs.read v2)
    | .Mod r v1 v2 => .Mod r (regs.read v1) (regs.read v2)
    | .Eq r v1 v2 => .Eq r (regs.read v1) (regs.read v2)
    | .Push v => .Push (regs.read v)
    | .Pop r => .Pop r
    | .Gt r v1 v2 => .Gt r (regs.read v1) (regs.read v2)
    | .And r v1 v2 => .And r (regs.read v1) (regs.read v2)
    | .Or r v1 v2 => .Or r (regs.read v1) (regs.read v2)
    | .Not r v => .Not r (regs.read v)
    | .Call a => .Call (addrOfU16 (regs.read a))
    | .Rmem r a => .Rmem r (addrOfU16 (regs.read a))
    | .Wmem a v => .Wmem (addrOfU16 (regs.read a)) (regs.read v)
    | .Ret => .Ret (ret.map addrOfU16)
    | .In r => .In r)

/-- machine.rs `Machine`.  The stack is kept top-at-head (`Vec::push`,
`Vec::pop` and `last()` act on the end of the vector, so `cons`, `tail`
and `head?` here); the input buffer is the pending character codes. -/
structure Machine where
  memory : Memory
  registers : RegisterSet
  stack : List Nat
  inputBuffer : List Nat

/-- machine.rs `OpResult` (the step outcome), each variant carrying the
machine (`StalledMachine` keeps the register awaiting input). -/
inductive OpResult where
  | Input (m : Machine) (reg : Fin 8)
  | Output (c : Nat) (m : Machine)
  | Continue (m : Machine)
  | Halted (m : Machine)

def OpResult.machine : OpResult → Machine
  | .Input m _ => m
  | .Output _ m => m
  | .Continue m => m
  | .Halted m => m

/-- `Machine::write_reg_from_buffer`: remove the first buffered character,
convert `char as u16` through `Value::try_from` and store it resolved.
`String::remove` on an empty buffer panics (`none`). -/
def Machine.writeRegFromBuffer (m : Machine) (reg : Fin 8) :
    Option (Except VmError Machine) :=
  match m.inputBuffer with
  | [] => none
  | c :: rest =>
    some ((valueTryFromU16 (c % 65536)).map fun v =>
      { m with inputBuffer := rest, registers := m.registers.writeVal reg v })

/-- The execution arms of `Machine::step`'s match, applied to the machine
whose memory cursor already advanced past the fetched instruction.
`none` models the Rust panic on `val1 % val2` with `val2 = 0`. -/
def Machine.execInstr (m2 : Machine) (dop : DecodedOpCode) : Option (Except VmError OpResult) :=
  let mem2 := m2.memory
  match dop with
      | .Halt => some (.ok (.Halted m2))
      | .Out c => some (.ok (.Output c m2))
      | .Noop => some (.ok (.Continue m2))
      | .Jmp a => some (.ok (.Continue { m2 with memory := mem2.setIp a }))
      | .Jt c a =>
        some (.ok (.Continue (if c ≠ 0 then { m2 with memory := mem2.setIp a } else m2)))
      | .Jf c a =>
        some (.ok (.Continue (if c = 0 then { m2 with memory := mem2.setIp a } else m2)))
      | .Set r v => some (.ok (.Continue { m2 with registers := m2.registers.writeU16 r v }))
      | .Add r v1 v2 =>
        some (.ok (.Continue
          { m2 with registers := m2.registers.writeU16 r ((v1 + v2) % 65536 % 32768) }))
      | .Mult r v1 v2 =>
        some (.ok (.Continue
          { m2 with registers := m2.registers.writeU16 r (v1 * v2 % 32768) }))
      | .Mod r v1 v2 =>
        if v2 = 0 then none
        else some (.ok (.Continue
          { m2 with registers := m2.registers.writeU16 r (v1 % v2 % 32768) }))
      | .Eq r v1 v2 =>
        some (.ok (.Continue
          { m2 with registers := m2.registers.writeU16 r (if v1 = v2 then 1 else 0) }))
      | .Push v => some (.ok (.Continue { m2 with stack := v :: m2.stack }))
      | .Pop r =>
        match m2.stack with
        | [] => some (.error .emptyStack)
        | v :: rest =>
          some (.ok (.Continue { m2 with registers := m2.registers.writeU16 r v, stack := rest }))
      | .Gt r v1 v2 =>
        some (.ok (.Continue
          { m2 with registers := m2.registers.writeU16 r (if v1 > v2 then 1 else 0) }))
      | .And r v1 v2 =>
        some (.ok (.Continue { m2 with registers := m2.registers.writeU16 r (v1 &&& v2) }))
      | .Or r v1 v2 =>
        some (.ok (.Continue { m2 with registers := m2.registers.writeU16 r (v1 ||| v2) }))
      | .Not r v =>
        some (.ok (.Continue
          { m2 with registers := m2.registers.writeU16 r ((v % 65536 ^^^ 65535) &&& 32767) }))
      | .Call a =>
        some (.ok (.Continue { m2 with stack := mem2.ipWord :: m2.stack, memory := mem2.setIp a }))
      | .Rmem r a =>
        match Memory.read mem2 a with
        | (.error e, _) => some (.error e)
        | (.ok w, mem3) =>
          match valueTryFromU16 w with
          | .error e => some (.error e)
          | .ok v =>
            some (.ok (.Continue { m2 with memory := mem3, registers := m2.registers.writeVal r v }))
      | .Wmem a v => some (.ok (.Continue { m2 with memory := mem2.write a v }))
      | .Ret addr? =>
        match addr? with
        | some a =>
          some (.ok (.Continue { m2 with stack := m2.stack.tail, memory := mem2.setIp a }))
        | none => some (.ok (.Halted m2))
      | .In r =>
        if m2.inputBuffer.length = 0 then some (.ok (.Input m2 r))
        else
          match m2.writeRegFromBuffer r with
          | none => none
          | some (.error e) => some (.error e)
          | some (.ok m3) => some (.ok (.Continue m3))

/-- `Machine::step`: fetch, decode against registers and stack top, execute. -/
def Machine.step (m : Machine) : Option (Except VmError OpResult) :=
  match Memory.fetchOp m.memory with
  | (.error e, _) => some (.error e)
  | (.ok op, mem2) =>
    match op.decode m.registers m.stack.head? with
    | .error e => some (.error e)
    | .ok dop => Machine.execInstr { m with memory := mem2 } dop

/-- `Machine::peek_instr`: snapshot the IP, fetch and decode, restore the
IP.  The two `?` operators return early on failure, before the restore. -/
def Machine.peekInstr (m : Machine) : Except VmError (OpCode × DecodedOpCode) × Machine :=
  let ip0 := m.memory.ipWord
  match Memory.fetchOp m.memory with
  | (.error e, mem2) => (.error e, { m with memory := mem2 })
  | (.ok op, mem2) =>
    match op.decode m.registers m.stack.head? with
    | .error e => (.error e, { m with memory := mem2 })
    | .ok dop => (.ok (op, dop), { m with memory := mem2.setIp ip0 })

/-- `Machine::new`: fresh machine over a ROM byte image. -/
def Machine.new (rom : List Nat) : Except VmError Machine :=
  (Memory.new rom).map fun mem =>
    { memory := mem, registers := fun _ => 0, stack := [], inputBuffer := [] }

/-- `StalledMachine::set_input`: install the input buffer, then fill the
waiting register from it. -/
def Machine.setInput (m : Machine) (input : List Nat) (reg : Fin 8) :
    Option (Except VmError Machine) :=
  Machine.writeRegFromBuffer { m with inputBuffer := input } reg

/-- Execution state used to drive runs: the Running/Stalled/Halted wrapper
of debugger/mod.rs `VmState`, over bare machines. -/
inductive RunState where
  | running (m : Machine)
  | stalled (m : Machine) (r : Fin 8)
  | halted (m : Machine)

def RunState.machine : RunState → Machine
  | .running m => m
  | .stalled m _ => m
  | .halted m => m

def RunState.isHalted : RunState → Bool
  | .halted _ => true
  | _ => false

def RunState.isRunning : RunState → Bool
  | .running _ => true
  | _ => false

/-- One driven step: step a running machine and reclassify its outcome;
stalled and halted states stay put. -/
def stepRun : RunState → Option (Except VmError RunState)
  | .running m =>
    match m.step with
    | none => none
    | some (.error e) => some (.error e)
    | some (.ok (.Continue m')) => some (.ok (.running m'))
    | some (.ok (.Output _ m')) => some (.ok (.running m'))
    | some (.ok (.Input m' r)) => some (.ok (.stalled m' r))
    | some (.ok (.Halted m')) => some (.ok (.halted m'))
  | s => some (.ok s)

/-- Run `n` driven steps, stopping early on an error or panic. -/
def runN : Nat → RunState → Option (Except VmError RunState)
  | 0, s => some (.ok s)
  | n + 1, s =>
    match stepRun s with
    | some (.ok s') => runN n s'
    | r => r

/-- Project the machine out of a successful run result. -/
def runMachine? : Option (Except VmError RunState) → Option Machine
  | some (.ok s) => some s.machine
  | _ => none

/-- Little-endian bytes of a u16 word. -/
def u16le (v : Nat) : List Nat := [v % 256, v / 256 % 256]

/-- Byte image of a word list (ROM images are byte streams). -/
def wordsToBytes (ws : List Nat) : List Nat := (ws.map u16le).flatten

/-- A machine from a ROM image, defaulting to an empty machine if the ROM
is rejected (concrete theorems also assert `Machine.new rom = .ok ...`). -/
def mOf (rom : List Nat) : Machine :=
  match Machine.new rom with
  | .ok m => m
  | .error _ =>
    { memory := { data := fun _ => 0, len := MAX_BYTES, maxUsed := 0, pos := 0 }
      registers := fun _ => 0, stack := [], inputBuffer := [] }

/-- memory.rs `Target`: the addressable entity a breakpoint watches. -/
inductive Target where
  | Mem (a : Nat)
  | Reg (r : Fin 8)
  deriving DecidableEq, Repr

/-- `PartialEq<Addr> for Target`: only `Mem` compares against an address. -/
def Target.eqAddr : Target → Nat → Bool
  | .Mem x, a => x == a
  | _, _ => false

/-- `PartialEq<Register> for Target`: only `Reg` compares against a register. -/
def Target.eqReg : Target → Fin 8 → Bool
  | .Reg x, r => x == r
  | _, _ => false

/-- `PartialEq<Value> for Target`: `Reg(r) == FromRegister(r)` only;
a `Mem` target never equals a `Value`. -/
def Target.eqVal : Target → Value → Bool
  | .Reg x, .FromRegister r => x == r
  | _, _ => false

/-- `OpAccess::reads` for the raw `OpCode` (operands still `Value`s). -/
def OpCode.reads (op : OpCode) (t : Target) : Bool :=
  match op with
  | .Halt => false
  | .Set _ v => t.eqVal v
  | .Push v => t.eqVal v
  | .Pop _ => false
  | .Eq _ v1 v2 => t.eqVal v1 || t.eqVal v2
  | .Gt _ v1 v2 => t.eqVal v1 || t.eqVal v2
  | .Jmp a => t.eqVal a
  | .Jt c a => t.eqVal c || t.eqVal a
  | .Jf c a => t.eqVal c || t.eqVal a
  | .Add _ v1 v2 => t.eqVal v1 || t.eqVal v2
  | .Mult _ v1 v2 => t.eqVal v1 || t.eqVal v2
  | .Mod _ v1 v2 => t.eqVal v1 || t.eqVal v2
  | .And _ v1 v2 => t.eqVal v1 || t.eqVal v2
  | .Or _ v1 v2 => t.eqVal v1 || t.eqVal v2
  | .Not _ v => t.eqVal v
  | .Rmem _ a => t.eqVal a
  | .Wmem _ v => t.eqVal v
  | .Call a => t.eqVal a
  | .Ret => false
  | .Out c => t.eqVal c
  | .In _ => false
  | .Noop => false

/-- `OpAccess::writes` for the raw `OpCode`. -/
def OpCode.writes (op : OpCode) (t : Target) : Bool :=
  match op with
  | .Halt => false
  | .Set r _ => t.eqReg r
  | .Push _ => false
  | .Pop r => t.eqReg r
  | .Eq r _ _ => t.eqReg r
  | .Gt r _ _ => t.eqReg r
  | .Jmp _ => false
  | .Jt _ _ => false
  | .Jf _ _ => false
  | .Add r _ _ => t.eqReg r
  | .Mult r _ _ => t.eqReg r
  | .Mod r _ _ => t.eqReg r
  | .And r _ _ => t.eqReg r
  | .Or r _ _ => t.eqReg r
  | .Not r _ => t.eqReg r
  | .Rmem r _ => t.eqReg r
  | .Wmem a _ => t.eqVal a
  | .Call _ => false
  | .Ret => false
  | .Out _ => false
  | .In r => t.eqReg r
  | .Noop => false

def OpCode.accesses (op : OpCode) (t : Target) : Bool := op.reads t || op.writes t

/-- `OpAccess::reads` for `DecodedOpCode`: operands are resolved, so the
only remaining read is `rmem`'s memory cell. -/
def DecodedOpCode.reads (dop : DecodedOpCode) (t : Target) : Bool :=
  match dop with
  | .Rmem _ a => t.eqAddr a
  | _ => false

/-- `OpAccess::writes` for `DecodedOpCode`. -/
def DecodedOpCode.writes (dop : DecodedOpCode) (t : Target) : Bool :=
  match dop with
  | .Halt => false
  | .Set r _ => t.eqReg r
  | .Push _ => false
  | .Pop r => t.eqReg r
  | .Eq r _ _ => t.eqReg r
  | .Gt r _ _ => t.eqReg r
  | .Jmp _ => false
  | .Jt _ _ => false
  | .Jf _ _ => false
  | .Add r _ _ => t.eqReg r
  | .Mult r _ _ => t.eqReg r
  | .Mod r _ _ => t.eqReg r
  | .And r _ _ => t.eqReg r
  | .Or r _ _ => t.eqReg r
  | .Not r _ => t.eqReg r
  | .Rmem r _ => t.eqReg r
  | .Wmem a _ => t.eqAddr a
  | .Call _ => false
  | .Ret _ => false
  | .Out _ => false
  | .In r => t.eqReg r
  | .Noop => false

def DecodedOpCode.accesses (dop : DecodedOpCode) (t : Target) : Bool :=
  dop.reads t || dop.writes t

/-- breakpoint.rs `Breakpoint`. -/
inductive Breakpoint where
  | At (a : Nat)
  | Read (t : Target)
  | Write (t : Target)
  | Access (t : Target)
  deriving DecidableEq, Repr

/-- `Breakpoint::is_triggered` against `(ip, raw op, decoded op)`. -/
def Breakpoint.isTriggered (bp : Breakpoint) (ip : Nat) (op : OpCode)
    (dop : DecodedOpCode) : Bool :=
  match bp with
  | .At a => ip == a
  | .Read t => op.reads t || dop.reads t
  | .Write t => op.writes t || dop.writes t
  | .Access t => op.accesses t || dop.accesses t

/-- breakpoint.rs `Reason` (the breakpoint by value instead of borrowed). -/
inductive Reason where
  | Halted
  | Stalled
  | Triggered (bp : Breakpoint)
  deriving DecidableEq, Repr

/-- debugger/mod.rs `VmState`. -/
inductive VmState where
  | Running (m : Machine)
  | Stalled (m : Machine) (r : Fin 8)
  | Halted (m : Machine)

def VmState.machine : VmState → Machine
  | .Running m => m
  | .Stalled m _ => m
  | .Halted m => m

/-- debugger/mod.rs `Debugger` (the trace sink is I/O and not modelled). -/
structure Debugger where
  state : VmState
  breakpoints : List Breakpoint

/-- `Debugger::triggered_breakpoint`: on a running machine, peek the next
instruction (a `&mut` call — the machine keeps peek's effect) and return
the first breakpoint in insertion order that triggers; Stalled and Halted
states yield their synthetic reasons. -/
def Debugger.triggeredBreakpoint (d : Debugger) :
    Except VmError (Option Reason) × Debugger :=
  match d.state with
  | .Running m =>
    match m.peekInstr with
    | (.error e, m') => (.error e, { d with state := .Running m' })
    | (.ok (op, dop), m') =>
      (.ok ((d.breakpoints.find? fun bp => bp.isTriggered m'.memory.ipWord op dop).map
        .Triggered),
       { d with state := .Running m' })
  | .Stalled _ _ => (.ok (some .Stalled), d)
  | .Halted _ => (.ok (some .Halted), d)

/-- `Debugger::step_vm` without its I/O: a running machine is stepped and
the outcome reclassified; a stalled machine here takes the no-input escape
branch and stays stalled; a halted machine stays halted.  `none` is the
division panic bubbling up. -/
def Debugger.stepVm (d : Debugger) : Option (Except VmError Debugger) :=
  match d.state with
  | .Running m =>
    match m.step with
    | none => none
    | some (.error e) => some (.error e)
    | some (.ok (.Continue m')) => some (.ok { d with state := .Running m' })
    | some (.ok (.Output _ m')) => some (.ok { d with state := .Running m' })
    | some (.ok (.Input m' r)) => some (.ok { d with state := .Stalled m' r })
    | some (.ok (.Halted m')) => some (.ok { d with state := .Halted m' })
  | _ => some (.ok d)

/-- The debug loop body of the `c` command: step, then evaluate
breakpoints against the next (not yet executed) instruction; stop when a
reason fires, keep looping on no trigger and on breakpoint-test errors
(the source prints those and continues).  `none` is fuel exhaustion or the
division panic; step errors abort the loop as in the source's `?`. -/
def continueLoop : Nat → Debugger → Option (Except VmError (Debugger × Reason))
  | 0, _ => none
  | fuel + 1, d =>
    match d.stepVm with
    | none => none
    | some (.error e) => some (.error e)
    | some (.ok d1) =>
      match d1.triggeredBreakpoint with
      | (.ok (some r), d2) => some (.ok (d2, r))
      | (.ok none, d2) => continueLoop fuel d2
      | (.error _, d2) => continueLoop fuel d2

/-- A byte buffer behind `Cursor<Vec<u8>>` as used by `Machine::as_bytes`:
byte store (all positions outside the written/resized region read 0,
matching `resize`'s and past-the-end writes' zero fill), current vector
length, cursor position. -/
structure ByteBuf where
  data : Nat → Nat
  len : Nat
  pos : Nat

def ByteBuf.write8 (b : ByteBuf) (v : Nat) : ByteBuf :=
  { data := fun i => if i = b.pos then v % 256 else b.data i
    len := max b.len (b.pos + 1)
    pos := b.pos + 1 }

/-- `write_u16::<LittleEndian>` on the cursor. -/
def ByteBuf.write16 (b : ByteBuf) (v : Nat) : ByteBuf :=
  (b.write8 (v % 256)).write8 (v / 256 % 256)

/-- `seek(SeekFrom::Current(n))`. -/
def ByteBuf.seekCur (b : ByteBuf) (n : Nat) : ByteBuf := { b with pos := b.pos + n }

def ByteBuf.toList (b : ByteBuf) : List Nat := (List.range b.len).map b.data

/-- `Machine::as_bytes`: ip, mem_bytes, the memory image copied by slice
into bytes `[4, 4+mem_bytes)` while the cursor stays at 4, then
`seek(Current(mem_bytes/2))` from there, registers, stack length in bytes
and the stack bottom-first.  `none` models the `copy_from_slice` /
slice-bounds panics when `used_bytes` truncated. -/
def Machine.asBytes (m : Machine) : Option (List Nat) :=
  let memBytes := m.memory.usedBytes
  let stackBytes := m.stack.length * 2
  let totBytes := 2 + 2 + memBytes + 16 + 2 + stackBytes
  let srcLen := (m.memory.maxUsed + 1) * 2
  if srcLen = memBytes ∧ srcLen ≤ m.memory.len then
    let b0 : ByteBuf := { data := fun _ => 0, len := totBytes, pos := 0 }
    let b1 := (b0.write16 m.memory.ipWord).write16 memBytes
    let b2 : ByteBuf :=
      { b1 with data := fun i =>
          if 4 ≤ i ∧ i < 4 + memBytes then m.memory.data (i - 4) else b1.data i }
    let b3 := b2.seekCur (memBytes / 2)
    let b4 := (List.range 8).foldl (fun b j => b.write16 (m.registers j)) b3
    let b5 := b4.write16 stackBytes
    let b6 := m.stack.reverse.foldl (fun b v => b.write16 v) b5
    some b6.toList
  else none

/-- `read_u16::<LittleEndian>` at a fixed offset of a byte slice. -/
def readU16At (d : List Nat) (p : Nat) : Except VmError Nat :=
  if p + 2 ≤ d.length then .ok (d.getD p 0 + 256 * d.getD (p + 1) 0) else .error .eof

/-- Read `n` consecutive little-endian words starting at offset `p`. -/
def readWordsAt (d : List Nat) : Nat → Nat → Except VmError (List Nat)
  | _, 0 => .ok []
  | p, n + 1 =>
    match readU16At d p with
    | .error e => .error e
    | .ok w => (readWordsAt d (p + 2) n).map (w :: ·)

/-- `Machine::try_from(&[u8])`: ip, mem_bytes, the image from bytes
`[4, 4+mem_bytes)` (out-of-bounds slicing panics: `none`), then — with the
cursor still at 4 — `seek(Current(mem_bytes/2))`, eight registers, the
stack byte count and the stack entries bottom-first. -/
def Machine.tryFrom (d : List Nat) : Option (Except VmError Machine) :=
  match readU16At d 0 with
  | .error e => some (.error e)
  | .ok ip =>
    match readU16At d 2 with
    | .error e => some (.error e)
    | .ok memBytes =>
      if d.length < 4 + memBytes then none
      else
        match Memory.new ((d.drop 4).take memBytes) with
        | .error e => some (.error e)
        | .ok mem0 =>
          let mem := mem0.setIp ip
          let rbase := 4 + memBytes / 2
          match readWordsAt d rbase 8 with
          | .error e => some (.error e)
          | .ok regs =>
            match readU16At d (rbase + 16) with
            | .error e => some (.error e)
            | .ok stackBytes =>
              match readWordsAt d (rbase + 18) (stackBytes / 2) with
              | .error e => some (.error e)
              | .ok stackWords =>
                some (.ok { memory := mem
                            registers := fun i => regs.getD i 0
                            stack := stackWords.reverse
                            inputBuffer := [] })

/-- `Debugger::save_vm`: one state-tag byte (0 Stalled / 1 Running /
2 Halted), one stalled-register byte, then `as_bytes` of the machine. -/
def Debugger.saveVm (d : Debugger) : Option (List Nat) :=
  let tagReg : Nat × Nat :=
    match d.state with
    | .Stalled _ r => (0, r.val)
    | .Running _ => (1, 0)
    | .Halted _ => (2, 0)
  (d.state.machine.asBytes).map fun bytes => tagReg.1 :: tagReg.2 :: bytes

/-- Machine states reachable from `m0` by stepping (through any outcome)
and by providing input to a stalled machine. -/
inductive Reachable (m0 : Machine) : Machine → Prop where
  | refl : Reachable m0 m0
  | step {a : Machine} {r : OpResult} :
      Reachable m0 a → a.step = some (.ok r) → Reachable m0 r.machine
  | input {a b : Machine} {s : List Nat} {reg : Fin 8} :
      Reachable m0 a → a.setInput s reg = some (.ok b) → Reachable m0 b

/-! Section: Structural lemmas about the memory cursor -/

/-- Cursor operations other than `write` leave bytes, length and watermark
untouched. -/
def SameShape (a b : Memory) : Prop :=
  b.data = a.data ∧ b.len = a.len ∧ b.maxUsed = a.maxUsed

/-- The cursor invariant of reachable memories: the byte cursor and vector
length stay even and below the doubled address space (`2 * 65536`). -/
def MemInv (mem : Memory) : Prop :=
  mem.pos % 2 = 0 ∧ mem.pos ≤ 131072 ∧ mem.len % 2 = 0 ∧ mem.len ≤ 131072

/-- A `Memory` computation preserves the shape and the cursor invariant. -/
def MemMOK {α : Type} (x : MemM α) : Prop :=
  ∀ m r m2, x m = (r, m2) → SameShape m m2 ∧ (MemInv m → MemInv m2)

theorem sameShape_refl (m : Memory) : SameShape m m := ⟨rfl, rfl, rfl⟩

theorem sameShape_trans {a b c : Memory} (h1 : SameShape a b) (h2 : SameShape b c) :
    SameShape a c :=
  ⟨h2.1.trans h1.1, h2.2.1.trans h1.2.1, h2.2.2.trans h1.2.2⟩

theorem memmOK_mpure {α : Type} (a : α) : MemMOK (mpure a) := by
  intro m r m2 h
  simp only [mpure] at h
  injection h with h1 h2
  subst h2
  exact ⟨sameShape_refl m, id⟩

theorem memmOK_mthrow {α : Type} (e : VmError) : MemMOK (mthrow (α := α) e) := by
  intro m r m2 h
  simp only [mthrow] at h
  injection h with h1 h2
  subst h2
  exact ⟨sameShape_refl m, id⟩

theorem memmOK_liftExcept {α : Type} (e : Except VmError α) : MemMOK (liftExcept e) := by
  intro m r m2 h
  simp only [liftExcept] at h
  injection h with h1 h2
  subst h2
  exact ⟨sameShape_refl m, id⟩

theorem memmOK_mbind {α β : Type} {x : MemM α} {f : α → MemM β}
    (hx : MemMOK x) (hf : ∀ a, MemMOK (f a)) : MemMOK (mbind x f) := by
  intro m r m2 h
  simp only [mbind] at h
  rcases hxm : x m with ⟨res, mx⟩
  rw [hxm] at h
  cases res with
  | ok a =>
    have h1 := hx m _ _ hxm
    have h2 := hf a mx _ _ h
    exact ⟨sameShape_trans h1.1 h2.1, fun hi => h2.2 (h1.2 hi)⟩
  | error e =>
    injection h with h1 h2
    subst h2
    exact hx m _ _ hxm

theorem memmOK_readU16 : MemMOK Memory.readU16 := by
  intro m r m2 h
  simp only [Memory.readU16] at h
  split at h
  case isTrue hle =>
    injection h with h1 h2
    subst h2
    refine ⟨⟨rfl, rfl, rfl⟩, fun hi => ?_⟩
    obtain ⟨p1, p2, p3, p4⟩ := hi
    refine ⟨?_, ?_, p3, p4⟩
    · show (m.pos + 2) % 2 = 0
      omega
    · show m.pos + 2 ≤ 131072
      omega
  case isFalse hle =>
    injection h with h1 h2
    subst h2
    exact ⟨sameShape_refl m, id⟩

theorem memmOK_nextVal : MemMOK Memory.nextVal :=
  memmOK_mbind memmOK_readU16 fun u => memmOK_liftExcept _

theorem memmOK_nextReg : MemMOK Memory.nextReg :=
  memmOK_mbind memmOK_readU16 fun u => memmOK_liftExcept _

theorem memmOK_nextInstr : MemMOK Memory.nextInstr := by
  refine memmOK_mbind memmOK_nextVal fun v => ?_
  cases v with
  | Literal i => exact memmOK_mpure i
  | FromRegister r => exact memmOK_mthrow _

theorem memmOK_rrr (k : Fin 8 → Value → Value → OpCode) : MemMOK (rrr k) :=
  memmOK_mbind memmOK_nextReg fun r =>
    memmOK_mbind memmOK_nextVal fun v1 =>
      memmOK_mbind memmOK_nextVal fun v2 => memmOK_mpure _

theorem memmOK_bindRV {β : Type} (k : Fin 8 → Value → MemM β) (hk : ∀ r v, MemMOK (k r v)) :
    MemMOK (mbind Memory.nextReg fun r => mbind Memory.nextVal fun v => k r v) :=
  memmOK_mbind memmOK_nextReg fun r => memmOK_mbind memmOK_nextVal fun v => hk r v

theorem memmOK_bindVV {β : Type} (k : Value → Value → MemM β) (hk : ∀ a b, MemMOK (k a b)) :
    MemMOK (mbind Memory.nextVal fun a => mbind Memory.nextVal fun b => k a b) :=
  memmOK_mbind memmOK_nextVal fun a => memmOK_mbind memmOK_nextVal fun b => hk a b

theorem memmOK_fetchDispatch (instr : Nat) : MemMOK (fetchDispatch instr) := by
  unfold fetchDispatch
  by_cases h0 : instr = 0
  · rw [if_pos h0]; exact memmOK_mpure _
  rw [if_neg h0]
  by_cases h1 : instr = 1
  · rw [if_pos h1]; exact memmOK_bindRV _ fun _ _ => memmOK_mpure _
  rw [if_neg h1]
  by_cases h2 : instr = 2
  · rw [if_pos h2]; exact memmOK_mbind memmOK_nextVal fun _ => memmOK_mpure _
  rw [if_neg h2]
  by_cases h3 : instr = 3
  · rw [if_pos h3]; exact memmOK_mbind memmOK_nextReg fun _ => memmOK_mpure _
  rw [if_neg h3]
  by_cases h4 : instr = 4
  · rw [if_pos h4]; exact memmOK_rrr _
  rw [if_neg h4]
  by_cases h5 : instr = 5
  · rw [if_pos h5]; exact memmOK_rrr _
  rw [if_neg h5]
  by_cases h6 : instr = 6
  · rw [if_pos h6]; exact memmOK_mbind memmOK_nextVal fun _ => memmOK_mpure _
  rw [if_neg h6]
  by_cases h7 : instr = 7
  · rw [if_pos h7]; exact memmOK_bindVV _ fun _ _ => memmOK_mpure _
  rw [if_neg h7]
  by_cases h8 : instr = 8
  · rw [if_pos h8]; exact memmOK_bindVV _ fun _ _ => memmOK_mpure _
  rw [if_neg h8]
  by_cases h9 : instr = 9
  · rw [if_pos h9]; exact memmOK_rrr _
  rw [if_neg h9]
  by_cases h10 : instr = 10
  · rw [if_pos h10]; exact memmOK_rrr _
  rw [if_neg h10]
  by_cases h11 : instr = 11
  · rw [if_pos h11]; exact memmOK_rrr _
  rw [if_neg h11]
  by_cases h12 : instr = 12
  · rw [if_pos h12]; exact memmOK_rrr _
  rw [if_neg h12]
  by_cases h13 : instr = 13
  · rw [if_pos h13]; exact memmOK_rrr _
  rw [if_neg h13]
  by_cases h14 : instr = 14
  · rw [if_pos h14]; exact memmOK_bindRV _ fun _ _ => memmOK_mpure _
  rw [if_neg h14]
  by_cases h15 : instr = 15
  · rw [if_pos h15]; exact memmOK_bindRV _ fun _ _ => memmOK_mpure _
  rw [if_neg h15]
  by_cases h16 : instr = 16
  · rw [if_pos h16]; exact memmOK_bindVV _ fun _ _ => memmOK_mpure _
  rw [if_neg h16]
  by_cases h17 : instr = 17
  · rw [if_pos h17]; exact memmOK_mbind memmOK_nextVal fun _ => memmOK_mpure _
  rw [if_neg h17]
  by_cases h18 : instr = 18
  · rw [if_pos h18]; exact memmOK_mpure _
  rw [if_neg h18]
  by_cases h19 : instr = 19
  · rw [if_pos h19]; exact memmOK_mbind memmOK_nextVal fun _ => memmOK_mpure _
  rw [if_neg h19]
  by_cases h20 : instr = 20
  · rw [if_pos h20]; exact memmOK_mbind memmOK_nextReg fun _ => memmOK_mpure _
  rw [if_neg h20]
  by_cases h21 : instr = 21
  · rw [if_pos h21]; exact memmOK_mpure _
  rw [if_neg h21]
  exact memmOK_mthrow _

theorem memmOK_fetchOp : MemMOK Memory.fetchOp := by
  unfold Memory.fetchOp
  exact memmOK_mbind memmOK_nextInstr memmOK_fetchDispatch

/-- Success of a bound computation gives success of its first stage. -/
theorem mbind_ok {α β : Type} {x : MemM α} {f : α → MemM β} {m : Memory} {b : β}
    {m2 : Memory} (h : mbind x f m = (.ok b, m2)) :
    ∃ a ma, x m = (.ok a, ma) ∧ f a ma = (.ok b, m2) := by
  simp only [mbind] at h
  rcases hxm : x m with ⟨res, mx⟩
  rw [hxm] at h
  cases res with
  | ok a => exact ⟨a, mx, rfl, h⟩
  | error e =>
    injection h with h1 h2
    exact absurd h1 (by simp)

theorem readU16_ok_bound {m : Memory} {u : Nat} {m2 : Memory}
    (h : Memory.readU16 m = (.ok u, m2)) : m.pos + 2 ≤ m.len := by
  simp only [Memory.readU16] at h
  split at h
  · assumption
  · injection h with h1 h2
    exact absurd h1 (by simp)

/-- A successful fetch read at least its opcode word at the cursor. -/
theorem fetchOp_ok_bound {m : Memory} {op : OpCode} {m2 : Memory}
    (h : Memory.fetchOp m = (.ok op, m2)) : m.pos + 2 ≤ m.len := by
  unfold Memory.fetchOp at h
  obtain ⟨i, mi, hi, _⟩ := mbind_ok h
  unfold Memory.nextInstr at hi
  obtain ⟨v, mv, hv, _⟩ := mbind_ok hi
  unfold Memory.nextVal at hv
  obtain ⟨u, mu, hu, _⟩ := mbind_ok hv
  exact readU16_ok_bound hu

/-- Every address field produced by `decode` is a u16 word index. -/
def DecodedAddrOK : DecodedOpCode → Prop
  | .Jmp a => a < 65536
  | .Jt _ a => a < 65536
  | .Jf _ a => a < 65536
  | .Call a => a < 65536
  | .Rmem _ a => a < 65536
  | .Wmem a _ => a < 65536
  | .Ret (some a) => a < 65536
  | _ => True

theorem decode_addrOK {op : OpCode} {regs : RegisterSet} {ret : Option Nat}
    {dop : DecodedOpCode} (h : op.decode regs ret = .ok dop) : DecodedAddrOK dop := by
  cases op <;>
    (simp only [OpCode.decode, Except.ok.injEq] at h; subst h)
  all_goals
    first
      | trivial
      | (cases ret with
          | none => trivial
          | some x =>
            show x % 65536 < 65536
            omega)
      | (show _ % 65536 < 65536
         omega)

theorem memInv_setIp {mem : Memory} {a : Nat} (h : MemInv mem) (ha : a < 65536) :
    MemInv (mem.setIp a) := by
  obtain ⟨p1, p2, p3, p4⟩ := h
  refine ⟨?_, ?_, p3, p4⟩
  · show 2 * a % 2 = 0
    omega
  · show 2 * a ≤ 131072
    omega

theorem memInv_write {mem : Memory} {a v : Nat} (h : MemInv mem) (ha : a < 65536) :
    MemInv (mem.write a v) := by
  obtain ⟨p1, p2, p3, p4⟩ := h
  refine ⟨?_, ?_, ?_, ?_⟩
  · show 2 * (mem.pos / 2 % 65536) % 2 = 0
    omega
  · show 2 * (mem.pos / 2 % 65536) ≤ 131072
    omega
  · show max mem.len (2 * a + 2) % 2 = 0
    omega
  · show max mem.len (2 * a + 2) ≤ 131072
    omega

theorem memInv_read_snd {mem : Memory} {a : Nat} (h : MemInv mem) :
    MemInv (Memory.read mem a).2 := by
  obtain ⟨p1, p2, p3, p4⟩ := h
  simp only [Memory.read, Memory.readU16]
  split
  · exact ⟨by show 2 * (mem.pos / 2 % 65536) % 2 = 0; omega,
      by show 2 * (mem.pos / 2 % 65536) ≤ 131072; omega, p3, p4⟩
  · exact ⟨by show 2 * (mem.pos / 2 % 65536) % 2 = 0; omega,
      by show 2 * (mem.pos / 2 % 65536) ≤ 131072; omega, p3, p4⟩

/-- `write_reg_from_buffer` touches only registers and the input buffer. -/
theorem absurd_error_ok {α : Type} {e : VmError} {b : α}
    (h : (some (.error e) : Option (Except VmError α)) = some (.ok b)) : False := by
  simp at h

theorem writeRegFromBuffer_frame {m : Machine} {reg : Fin 8} {m3 : Machine}
    (h : m.writeRegFromBuffer reg = some (.ok m3)) :
    m3.memory = m.memory ∧ m3.stack = m.stack := by
  rcases hb : m.inputBuffer with _ | ⟨c, rest⟩
  · simp [Machine.writeRegFromBuffer, hb] at h
  · simp only [Machine.writeRegFromBuffer, hb] at h
    rcases hv : valueTryFromU16 (c % 65536) with e | v
    · rw [hv] at h
      simp [Except.map] at h
    · rw [hv] at h
      simp only [Except.map, Option.some.injEq, Except.ok.injEq] at h
      rw [← h]
      exact ⟨rfl, rfl⟩

/-- Every successful instruction execution keeps the cursor invariant, for
decoded operands whose address fields are u16 word indices. -/
theorem execInstr_memInv {m2 : Machine} {dop : DecodedOpCode} {r : OpResult}
    (h : m2.execInstr dop = some (.ok r)) (hinv : MemInv m2.memory)
    (haddr : DecodedAddrOK dop) : MemInv r.machine.memory := by
  cases dop with
  | Halt =>
    simp only [Machine.execInstr, Option.some.injEq, Except.ok.injEq] at h
    subst h
    exact hinv
  | Out c =>
    simp only [Machine.execInstr, Option.some.injEq, Except.ok.injEq] at h
    subst h
    exact hinv
  | Noop =>
    simp only [Machine.execInstr, Option.some.injEq, Except.ok.injEq] at h
    subst h
    exact hinv
  | Jmp a =>
    simp only [Machine.execInstr, Option.some.injEq, Except.ok.injEq] at h
    subst h
    exact memInv_setIp hinv haddr
  | Jt c a =>
    simp only [Machine.execInstr, Option.some.injEq, Except.ok.injEq] at h
    subst h
    simp only [OpResult.machine]
    split
    · exact memInv_setIp hinv haddr
    · exact hinv
  | Jf c a =>
    simp only [Machine.execInstr, Option.some.injEq, Except.ok.injEq] at h
    subst h
    simp only [OpResult.machine]
    split
    · exact memInv_setIp hinv haddr
    · exact hinv
  | Set reg val =>
    simp only [Machine.execInstr, Option.some.injEq, Except.ok.injEq] at h
    subst h
    exact hinv
  | Add reg v1 v2 =>
    simp only [Machine.execInstr, Option.some.injEq, Except.ok.injEq] at h
    subst h
    exact hinv
  | Mult reg v1 v2 =>
    simp only [Machine.execInstr, Option.some.injEq, Except.ok.injEq] at h
    subst h
    exact hinv
  | Mod reg v1 v2 =>
    simp only [Machine.execInstr] at h
    split at h
    · exact absurd h (by simp)
    · simp only [Option.some.injEq, Except.ok.injEq] at h
      subst h
      exact hinv
  | Eq reg v1 v2 =>
    simp only [Machine.execInstr, Option.some.injEq, Except.ok.injEq] at h
    subst h
    exact hinv
  | Push val =>
    simp only [Machine.execInstr, Option.some.injEq, Except.ok.injEq] at h
    subst h
    exact hinv
  | Pop reg =>
    simp only [Machine.execInstr] at h
    split at h
    · exact absurd h (by simp)
    · simp only [Option.some.injEq, Except.ok.injEq] at h
      subst h
      exact hinv
  | Gt reg v1 v2 =>
    simp only [Machine.execInstr, Option.some.injEq, Except.ok.injEq] at h
    subst h
    exact hinv
  | And reg v1 v2 =>
    simp only [Machine.execInstr, Option.some.injEq, Except.ok.injEq] at h
    subst h
    exact hinv
  | Or reg v1 v2 =>
    simp only [Machine.execInstr, Option.some.injEq, Except.ok.injEq] at h
    subst h
    exact hinv
  | Not reg val =>
    simp only [Machine.execInstr, Option.some.injEq, Except.ok.injEq] at h
    subst h
    exact hinv
  | Call a =>
    simp only [Machine.execInstr, Option.some.injEq, Except.ok.injEq] at h
    subst h
    exact memInv_setIp hinv haddr
  | Rmem reg a =>
    simp only [Machine.execInstr] at h
    split at h
    next e snd heq => exact absurd h (by simp)
    next w mem3 heq =>
      split at h
      · exact absurd h (by simp)
      · simp only [Option.some.injEq, Except.ok.injEq] at h
        subst h
        have h3 := memInv_read_snd (a := a) hinv
        rw [heq] at h3
        exact h3
  | Wmem a v =>
    simp only [Machine.execInstr, Option.some.injEq, Except.ok.injEq] at h
    subst h
    exact memInv_write hinv haddr
  | Ret addr? =>
    cases addr? with
    | some a =>
      simp only [Machine.execInstr, Option.some.injEq, Except.ok.injEq] at h
      subst h
      exact memInv_setIp hinv haddr
    | none =>
      simp only [Machine.execInstr, Option.some.injEq, Except.ok.injEq] at h
      subst h
      exact hinv
  | In reg =>
    simp only [Machine.execInstr] at h
    split at h
    · simp only [Option.some.injEq, Except.ok.injEq] at h
      subst h
      exact hinv
    · split at h
      next heq => exact absurd h (by simp)
      next e heq => exact absurd h (by simp)
      next m3 heq =>
        simp only [Option.some.injEq, Except.ok.injEq] at h
        subst h
        show MemInv m3.memory
        rw [(writeRegFromBuffer_frame heq).1]
        exact hinv

/-- A successful step keeps the cursor invariant. -/
theorem step_memInv {m : Machine} {r : OpResult}
    (h : m.step = some (.ok r)) (hm : MemInv m.memory) : MemInv r.machine.memory := by
  unfold Machine.step at h
  split at h
  next e heq => exact absurd h (by simp)
  next op mem2 heq =>
    split at h
    next e heq2 => exact absurd h (by simp)
    next dop heq2 =>
      exact execInstr_memInv h ((memmOK_fetchOp m.memory _ _ heq).2 hm) (decode_addrOK heq2)

/-- Providing input does not touch memory. -/
theorem setInput_memory {m b : Machine} {s : List Nat} {reg : Fin 8}
    (h : m.setInput s reg = some (.ok b)) : b.memory = m.memory := by
  unfold Machine.setInput at h
  exact (writeRegFromBuffer_frame h).1

/-- A fresh machine satisfies the cursor invariant. -/
theorem machineNew_memInv {rom : List Nat} {m0 : Machine}
    (h : Machine.new rom = .ok m0) : MemInv m0.memory := by
  unfold Machine.new at h
  rcases hn : Memory.new rom with e | mem
  · rw [hn] at h
    simp [Except.map] at h
  · rw [hn] at h
    simp only [Except.map, Except.ok.injEq] at h
    subst h
    unfold Memory.new at hn
    split at hn
    · exact absurd hn (by simp)
    · simp only [Except.ok.injEq] at hn
      subst hn
      refine ⟨?_, ?_, ?_, ?_⟩
      · show (0 : Nat) % 2 = 0
        decide
      · show (0 : Nat) ≤ 131072
        decide
      · show MAX_BYTES % 2 = 0
        decide
      · show MAX_BYTES ≤ 131072
        decide

/-- Cursor invariant of every reachable machine state. -/
theorem reachable_memInv {m0 m : Machine} (h0 : MemInv m0.memory)
    (h : Reachable m0 m) : MemInv m.memory := by
  induction h with
  | refl => exact h0
  | step hr hs ih => exact step_memInv hs ih
  | input hr hs ih =>
    rw [setInput_memory hs]
    exact ih

/-- A successful peek restores the machine exactly, provided the cursor is
word-aligned and the vector length is in range (true of every reachable
state). -/
theorem peekInstr_ok_eq {m : Machine} {op : OpCode} {dop : DecodedOpCode} {m' : Machine}
    (hpos : m.memory.pos % 2 = 0) (hlen : m.memory.len ≤ 131072)
    (h : m.peekInstr = (.ok (op, dop), m')) : m' = m := by
  unfold Machine.peekInstr at h
  split at h
  next e mem2 heq =>
    injection h with h1 h2
    exact absurd h1 (by simp)
  next op2 mem2 heq =>
    split at h
    next e heq2 =>
      injection h with h1 h2
      exact absurd h1 (by simp)
    next dop2 heq2 =>
      injection h with h1 h2
      obtain ⟨s1, s2, s3⟩ := (memmOK_fetchOp m.memory _ _ heq).1
      have hb := fetchOp_ok_bound heq
      subst h2
      cases m with
      | mk mem regs stk buf =>
        cases mem with
        | mk dta ln mu ps =>
          have hps : ps % 2 = 0 := hpos
          have hln : ln ≤ 131072 := hlen
          have hb2 : ps + 2 ≤ ln := hb
          have hd : mem2.data = dta := s1
          have hl : mem2.len = ln := s2
          have hu : mem2.maxUsed = mu := s3
          simp only [Machine.mk.injEq, Memory.setIp, Memory.ipWord, addrOfPos,
            Memory.mk.injEq, and_true, true_and]
          refine ⟨hd, hl, hu, ?_⟩
          show 2 * (ps / 2 % 65536) = ps
          omega

/-- A failing peek leaves registers, stack, input buffer and the memory
bytes, length and watermark intact (only the cursor may have moved). -/
theorem peekInstr_error_frame {m : Machine} {e : VmError} {m' : Machine}
    (h : m.peekInstr = (.error e, m')) :
    m'.registers = m.registers ∧ m'.stack = m.stack ∧ m'.inputBuffer = m.inputBuffer ∧
      m'.memory.data = m.memory.data ∧ m'.memory.len = m.memory.len ∧
      m'.memory.maxUsed = m.memory.maxUsed := by
  unfold Machine.peekInstr at h
  split at h
  next e2 mem2 heq =>
    injection h with h1 h2
    subst h2
    obtain ⟨s1, s2, s3⟩ := (memmOK_fetchOp m.memory _ _ heq).1
    exact ⟨rfl, rfl, rfl, s1, s2, s3⟩
  next op2 mem2 heq =>
    split at h
    next e2 heq2 =>
      injection h with h1 h2
      subst h2
      obtain ⟨s1, s2, s3⟩ := (memmOK_fetchOp m.memory _ _ heq).1
      exact ⟨rfl, rfl, rfl, s1, s2, s3⟩
    next dop2 heq2 =>
      injection h with h1 h2
      exact absurd h1 (by simp)

/-- A successful peek (even without alignment assumptions) preserves
registers, stack, input buffer and the memory bytes. -/
theorem peekInstr_ok_frame {m : Machine} {op : OpCode} {dop : DecodedOpCode} {m' : Machine}
    (h : m.peekInstr = (.ok (op, dop), m')) :
    m'.registers = m.registers ∧ m'.stack = m.stack ∧ m'.inputBuffer = m.inputBuffer ∧
      m'.memory.data = m.memory.data := by
  unfold Machine.peekInstr at h
  split at h
  next e mem2 heq =>
    injection h with h1 h2
    exact absurd h1 (by simp)
  next op2 mem2 heq =>
    split at h
    next e heq2 =>
      injection h with h1 h2
      exact absurd h1 (by simp)
    next dop2 heq2 =>
      injection h with h1 h2
      obtain ⟨s1, s2, s3⟩ := (memmOK_fetchOp m.memory _ _ heq).1
      subst h2
      exact ⟨rfl, rfl, rfl, s1⟩

/-- `List.find?` returns the first match: everything before it fails the
predicate. -/
theorem find?_eq_some_split {α : Type} {p : α → Bool} {l : List α} {a : α}
    (h : l.find? p = some a) :
    p a = true ∧ ∃ l1 l2, l = l1 ++ a :: l2 ∧ ∀ x ∈ l1, p x = false := by
  induction l with
  | nil => simp at h
  | cons b t ih =>
    by_cases hb : p b = true
    · rw [List.find?_cons_of_pos _ hb] at h
      injection h with h1
      subst h1
      exact ⟨hb, [], t, rfl, by simp⟩
    · rw [List.find?_cons_of_neg _ (by simpa using hb)] at h
      obtain ⟨hp, l1, l2, heq, hall⟩ := ih h
      refine ⟨hp, b :: l1, l2, by rw [heq]; rfl, ?_⟩
      intro x hx
      rcases List.mem_cons.mp hx with hx | hx
      · subst hx
        simpa using hb
      · exact hall x hx

/-- The trigger conditions exactly as the specification words them:
`At a` iff `IP = a`; `Read t` iff the raw or the decoded opcode reads `t`;
`Write t` iff the raw or the decoded opcode writes `t`; `Access t` is the
union of `Read t` and `Write t`. -/
def specTriggered (bp : Breakpoint) (ip : Nat) (op : OpCode) (dop : DecodedOpCode) : Bool :=
  match bp with
  | .At a => ip == a
  | .Read t => op.reads t || dop.reads t
  | .Write t => op.writes t || dop.writes t
  | .Access t => (op.reads t || dop.reads t) || (op.writes t || dop.writes t)

theorem isTriggered_eq_spec (bp : Breakpoint) (ip : Nat) (op : OpCode)
    (dop : DecodedOpCode) : bp.isTriggered ip op dop = specTriggered bp ip op dop := by
  cases bp with
  | At a => rfl
  | Read t => rfl
  | Write t => rfl
  | Access t =>
    simp only [Breakpoint.isTriggered, specTriggered, OpCode.accesses,
      DecodedOpCode.accesses]
    cases op.reads t <;> cases op.writes t <;> cases dop.reads t <;>
      cases dop.writes t <;> rfl

/-! Section: Concrete programs and run projections used by the claims -/

def runReg? (r : Option (Except VmError RunState)) (i : Nat) : Option Nat :=
  (runMachine? r).map fun mm => mm.registers i

def runIsHalted? (r : Option (Except VmError RunState)) : Bool :=
  match r with
  | some (.ok s) => s.isHalted
  | _ => false

def runIsRunning? (r : Option (Except VmError RunState)) : Bool :=
  match r with
  | some (.ok s) => s.isRunning
  | _ => false

def runPos? (r : Option (Except VmError RunState)) : Option Nat :=
  (runMachine? r).map fun mm => mm.memory.pos

def runWordAt? (r : Option (Except VmError RunState)) (a : Nat) : Option Nat :=
  (runMachine? r).map fun mm => mm.memory.wordAt a

/-- `1 32768 32767 | 9 32768 32768 2 | 0` — the modular-wrap program. -/
def rom1 : List Nat := wordsToBytes [1, 32768, 32767, 9, 32768, 32768, 2, 0]

/-- `1 32768 3 | 1 32769 4 | 9 32770 32768 32769 | 0` — register arithmetic. -/
def rom2 : List Nat := wordsToBytes [1, 32768, 3, 1, 32769, 4, 9, 32770, 32768, 32769, 0]

/-- set r1 := 77, then `rmem r0, [6]` where memory word 6 holds 32769 (the
wire encoding of a reference to r1). -/
def c2xRom : List Nat := wordsToBytes [1, 32769, 77, 15, 32768, 6, 32769]

/-- `wmem 32767 21 | jmp 32767` — a noop at the top word of memory. -/
def rom9 : List Nat := wordsToBytes [16, 32767, 21, 6, 32767]

/-- A single invalid opcode word 22. -/
def c5xRom : List Nat := wordsToBytes [22]

/-- `pop r0` on an empty stack. -/
def popRom : List Nat := wordsToBytes [3, 32768]

/-- `ret` on an empty stack. -/
def retRom : List Nat := wordsToBytes [18]

/-- `mod r0, 5, 0` — remainder by zero. -/
def c10aRom : List Nat := wordsToBytes [11, 32768, 5, 0]

/-- `mod r0, 7, 3`. -/
def c10bRom : List Nat := wordsToBytes [11, 32768, 7, 3]

/-- `set r0 7` — the save/load failing input is the machine after one step. -/
def rom8 : List Nat := wordsToBytes [1, 32768, 7]

/-- `add r0, 32767, 32767`. -/
def c1wRom : List Nat := wordsToBytes [9, 32768, 32767, 32767]

/-! Section: C1 -/

/-- C1: for every machine whose next instruction is add, mult or mod with
resolved operands `v1`, `v2`, `step` writes the destination register with
the result reduced modulo 32768 (`(v1+v2) % 32768`, `(v1*v2) % 32768`,
`(v1 % v2) % 32768` — the mod case under the nonzero-divisor precondition
that C10 records), so the written result is `< 32768`; and running
`1 32768 32767 | 9 32768 32768 2 | 0` from a fresh machine halts with
`r0 = 1`. -/
theorem C1_step_arithmetic_mod32768 :
    (∀ (m : Machine) (op : OpCode) (mem2 : Memory) (reg : Fin 8) (v1 v2 : Nat),
      Memory.fetchOp m.memory = (.ok op, mem2) →
      op.decode m.registers m.stack.head? = .ok (.Add reg v1 v2) →
      m.step = some (.ok (.Continue
        { m with memory := mem2,
                 registers := m.registers.writeU16 reg ((v1 + v2) % 65536 % 32768) })) ∧
      m.registers.writeU16 reg ((v1 + v2) % 65536 % 32768) reg.val = (v1 + v2) % 32768 ∧
      (v1 + v2) % 32768 < 32768) ∧
    (∀ (m : Machine) (op : OpCode) (mem2 : Memory) (reg : Fin 8) (v1 v2 : Nat),
      Memory.fetchOp m.memory = (.ok op, mem2) →
      op.decode m.registers m.stack.head? = .ok (.Mult reg v1 v2) →
      m.step = some (.ok (.Continue
        { m with memory := mem2,
                 registers := m.registers.writeU16 reg (v1 * v2 % 32768) })) ∧
      m.registers.writeU16 reg (v1 * v2 % 32768) reg.val = v1 * v2 % 32768 ∧
      v1 * v2 % 32768 < 32768) ∧
    (∀ (m : Machine) (op : OpCode) (mem2 : Memory) (reg : Fin 8) (v1 v2 : Nat),
      v2 ≠ 0 →
      Memory.fetchOp m.memory = (.ok op, mem2) →
      op.decode m.registers m.stack.head? = .ok (.Mod reg v1 v2) →
      m.step = some (.ok (.Continue
        { m with memory := mem2,
                 registers := m.registers.writeU16 reg (v1 % v2 % 32768) })) ∧
      m.registers.writeU16 reg (v1 % v2 % 32768) reg.val = v1 % v2 % 32768 ∧
      v1 % v2 % 32768 < 32768) ∧
    (Machine.new rom1 = .ok (mOf rom1) ∧
      runIsHalted? (runN 3 (.running (mOf rom1))) = true ∧
      runReg? (runN 3 (.running (mOf rom1))) 0 = some 1) := by
  refine ⟨?_, ?_, ?_, rfl, rfl, rfl⟩
  · intro m op mem2 reg v1 v2 hf hd
    refine ⟨?_, ?_, ?_⟩
    · simp only [Machine.step, hf, hd, Machine.execInstr]
    · show (if reg.val = reg.val then (v1 + v2) % 65536 % 32768 % 65536
        else m.registers reg.val) = (v1 + v2) % 32768
      rw [if_pos rfl]
      omega
    · omega
  · intro m op mem2 reg v1 v2 hf hd
    refine ⟨?_, ?_, ?_⟩
    · simp only [Machine.step, hf, hd, Machine.execInstr]
    · show (if reg.val = reg.val then v1 * v2 % 32768 % 65536
        else m.registers reg.val) = v1 * v2 % 32768
      rw [if_pos rfl]
      generalize v1 * v2 = w
      omega
    · exact Nat.mod_lt _ (by norm_num)
  · intro m op mem2 reg v1 v2 hv2 hf hd
    refine ⟨?_, ?_, ?_⟩
    · simp only [Machine.step, hf, hd, Machine.execInstr]
      rw [if_neg hv2]
    · show (if reg.val = reg.val then v1 % v2 % 32768 % 65536
        else m.registers reg.val) = v1 % v2 % 32768
      rw [if_pos rfl]
      generalize v1 % v2 = w
      omega
    · exact Nat.mod_lt _ (by norm_num)

def c1wOp : OpCode := .Add 0 (.Literal 32767) (.Literal 32767)

def c1wMem2 : Memory := (Memory.fetchOp (mOf c1wRom).memory).2

def c1wNext : Machine :=
  { mOf c1wRom with
    memory := c1wMem2,
    registers := (mOf c1wRom).registers.writeU16 0 ((32767 + 32767) % 65536 % 32768) }

/-- C1 witness: the add case instantiated on `add r0, 32767, 32767`. -/
theorem C1_witness :
    Memory.fetchOp (mOf c1wRom).memory = (.ok c1wOp, c1wMem2) ∧
    OpCode.decode c1wOp (mOf c1wRom).registers (mOf c1wRom).stack.head? =
      .ok (.Add 0 32767 32767) ∧
    (mOf c1wRom).step = some (.ok (.Continue c1wNext)) ∧
    c1wNext.registers 0 = (32767 + 32767) % 32768 ∧
    (32767 + 32767) % 32768 < 32768 := by
  have h := C1_step_arithmetic_mod32768.1 (mOf c1wRom) c1wOp c1wMem2 0 32767 32767 rfl rfl
  exact ⟨rfl, rfl, h.1, h.2.1, h.2.2⟩

/-! Section: C2 -/

/-- C2 counterexample: executing `rmem r0, [6]` where memory word 6 holds
32769 and register r1 holds 77 stores 77 — the raw word 32769 is *not*
stored, refuting the claim that rmem stores the raw word for every word
value. -/
theorem C2_counterexample :
    Machine.new c2xRom = .ok (mOf c2xRom) ∧
    runWordAt? (runN 2 (.running (mOf c2xRom))) 6 = some 32769 ∧
    runReg? (runN 2 (.running (mOf c2xRom))) 0 = some 77 ∧
    runReg? (runN 2 (.running (mOf c2xRom))) 0 ≠ some 32769 := by
  refine ⟨rfl, rfl, rfl, by decide⟩

/-- C2 amended: for rmem with resolved address `a`, `step` pipes the word
`w` read at `a` through `Value::try_from` and register resolution: a word
`≤ 32767` is stored raw; a word in `[32768, 32775]` stores the current
value of register `w - 32768`; a word `≥ 32776` makes `step` fail.  For
wmem with resolved address `a` and resolved value `v`, `step` stores `v`
into memory cell `a`. -/
theorem C2_rmem_wmem_amended :
    (∀ (m : Machine) (op : OpCode) (mem2 mem3 : Memory) (reg : Fin 8) (a w : Nat),
      Memory.fetchOp m.memory = (.ok op, mem2) →
      op.decode m.registers m.stack.head? = .ok (.Rmem reg a) →
      Memory.read mem2 a = (.ok w, mem3) →
      (w ≤ 32767 →
        m.step = some (.ok (.Continue
          { m with memory := mem3, registers := m.registers.writeU16 reg w }))) ∧
      (32768 ≤ w → w ≤ 32775 →
        m.step = some (.ok (.Continue
          { m with memory := mem3,
                   registers := m.registers.writeU16 reg (m.registers (w - 32768)) }))) ∧
      (32776 ≤ w → ∃ e, m.step = some (.error e))) ∧
    (∀ (m : Machine) (op : OpCode) (mem2 : Memory) (a v : Nat),
      Memory.fetchOp m.memory = (.ok op, mem2) →
      op.decode m.registers m.stack.head? = .ok (.Wmem a v) →
      v < 65536 →
      m.step = some (.ok (.Continue { m with memory := mem2.write a v })) ∧
      (mem2.write a v).wordAt a = v) := by
  constructor
  · intro m op mem2 mem3 reg a w hf hd hr
    refine ⟨?_, ?_, ?_⟩
    · intro hw
      simp only [Machine.step, hf, hd, Machine.execInstr, hr, valueTryFromU16,
        if_pos hw]
      rfl
    · intro hw1 hw2
      simp only [Machine.step, hf, hd, Machine.execInstr, hr]
      interval_cases w <;> rfl
    · intro hw
      by_cases h6 : w = 32776
      · subst h6
        exact ⟨.invalidRegister 32776,
          by simp only [Machine.step, hf, hd, Machine.execInstr, hr]; rfl⟩
      · refine ⟨.invalidValue w, ?_⟩
        simp only [Machine.step, hf, hd, Machine.execInstr, hr, valueTryFromU16]
        rw [if_neg (by omega), if_neg (by omega)]
  · intro m op mem2 a v hf hd hv
    constructor
    · simp only [Machine.step, hf, hd, Machine.execInstr]
    · simp only [Memory.write, Memory.wordAt]
      split_ifs <;> omega

/-- `rmem r0, [3]` with word 3 = 42 (a literal), and `wmem 3, 99`. -/
def c2wRom : List Nat := wordsToBytes [15, 32768, 3, 42]

def c2wRom2 : List Nat := wordsToBytes [16, 3, 99]

def c2wMem2 : Memory := (Memory.fetchOp (mOf c2wRom).memory).2

def c2wMem3 : Memory := (Memory.read c2wMem2 3).2

def c2wMem22 : Memory := (Memory.fetchOp (mOf c2wRom2).memory).2

/-- C2 witness: the literal-word rmem case and the wmem case instantiated
concretely. -/
theorem C2_witness :
    (mOf c2wRom).step = some (.ok (.Continue
      { mOf c2wRom with
        memory := c2wMem3,
        registers := (mOf c2wRom).registers.writeU16 0 42 })) ∧
    (mOf c2wRom2).step = some (.ok (.Continue
      { mOf c2wRom2 with memory := c2wMem22.write 3 99 })) ∧
    (c2wMem22.write 3 99).wordAt 3 = 99 := by
  have h1 := (C2_rmem_wmem_amended.1 (mOf c2wRom) (.Rmem 0 (.Literal 3)) c2wMem2 c2wMem3
    0 3 42 rfl rfl rfl).1 (by decide)
  have h2 := C2_rmem_wmem_amended.2 (mOf c2wRom2) (.Wmem (.Literal 3) (.Literal 99))
    c2wMem22 3 99 rfl rfl (by decide)
  exact ⟨h1, h2.1, h2.2⟩

/-! Section: C4 -/

/-- C4: `pop` with an empty stack makes `step` fail with `EmptyStack`,
while `ret` with an empty stack is not an error — `step` returns the
Halted outcome. -/
theorem C4_empty_stack_pop_ret :
    (∀ (m : Machine) (reg : Fin 8) (mem2 : Memory),
      m.stack = [] →
      Memory.fetchOp m.memory = (.ok (.Pop reg), mem2) →
      m.step = some (.error .emptyStack)) ∧
    (∀ (m : Machine) (mem2 : Memory),
      m.stack = [] →
      Memory.fetchOp m.memory = (.ok .Ret, mem2) →
      m.step = some (.ok (.Halted { m with memory := mem2 }))) := by
  constructor
  · intro m reg mem2 hstack hf
    simp [Machine.step, hf, OpCode.decode, Machine.execInstr, hstack]
  · intro m mem2 hstack hf
    simp [Machine.step, hf, OpCode.decode, Machine.execInstr, hstack]

/-- C4 witness: `pop r0` and `ret` on fresh machines with empty stacks. -/
theorem C4_witness :
    (mOf popRom).stack = [] ∧
    (mOf popRom).step = some (.error .emptyStack) ∧
    (mOf retRom).step =
      some (.ok (.Halted { mOf retRom with memory := (Memory.fetchOp (mOf retRom).memory).2 })) := by
  refine ⟨rfl, ?_, ?_⟩
  · exact C4_empty_stack_pop_ret.1 (mOf popRom) 0 (Memory.fetchOp (mOf popRom).memory).2 rfl rfl
  · exact C4_empty_stack_pop_ret.2 (mOf retRom) (Memory.fetchOp (mOf retRom).memory).2 rfl rfl

/-! Section: C5 -/

/-- C5 counterexample: peeking a machine whose next word is the invalid
opcode 22 returns an error and leaves the IP advanced by one word (byte
cursor 2 instead of 0), refuting byte-identity for failing peeks. -/
theorem C5_counterexample :
    Machine.new c5xRom = .ok (mOf c5xRom) ∧
    (mOf c5xRom).memory.pos = 0 ∧
    ((mOf c5xRom).peekInstr).1 = .error (.invalidOpCode 22) ∧
    ((mOf c5xRom).peekInstr).2.memory.pos = 2 ∧
    ((mOf c5xRom).peekInstr).2.memory.pos ≠ (mOf c5xRom).memory.pos := by
  refine ⟨rfl, rfl, rfl, rfl, by decide⟩

/-- C5 amended: a *successful* `peek_instr` restores the machine exactly
(so any sequence of successful peeks leaves IP, registers, stack and
memory byte-identical), given the word-aligned cursor and in-range vector
length that hold in every reachable state; a *failing* peek still
preserves registers, stack, input buffer and the memory bytes, length and
watermark, but may leave the IP advanced past the words consumed before
the failure. -/
theorem C5_peek_sideeffect_free_amended :
    (∀ (m : Machine) (op : OpCode) (dop : DecodedOpCode) (m' : Machine),
      m.memory.pos % 2 = 0 → m.memory.len ≤ 131072 →
      m.peekInstr = (.ok (op, dop), m') → m' = m) ∧
    (∀ (m : Machine) (e : VmError) (m' : Machine),
      m.peekInstr = (.error e, m') →
      m'.registers = m.registers ∧ m'.stack = m.stack ∧
        m'.inputBuffer = m.inputBuffer ∧ m'.memory.data = m.memory.data ∧
        m'.memory.len = m.memory.len ∧ m'.memory.maxUsed = m.memory.maxUsed) :=
  ⟨fun _ _ _ _ h1 h2 h3 => peekInstr_ok_eq h1 h2 h3,
   fun _ _ _ h => peekInstr_error_frame h⟩

/-- C5 witness: a successful peek on the register-arithmetic program's
fresh machine restores it exactly. -/
theorem C5_witness :
    (mOf rom2).memory.pos % 2 = 0 ∧
    (mOf rom2).memory.len ≤ 131072 ∧
    ((mOf rom2).peekInstr).2 = mOf rom2 := by
  refine ⟨by decide, by decide, ?_⟩
  exact C5_peek_sideeffect_free_amended.1 (mOf rom2) (.Set 0 (.Literal 3)) (.Set 0 3)
    ((mOf rom2).peekInstr).2 (by decide) (by decide) rfl

/-! Section: C9 -/

/-- C9 counterexample: from the valid ROM `wmem 32767 21 | jmp 32767`,
three steps leave a *running* machine whose byte cursor is 65536, i.e.
word index 32768, refuting `IP ≤ 32767`. -/
theorem C9_counterexample :
    Machine.new rom9 = .ok (mOf rom9) ∧
    runIsRunning? (runN 3 (.running (mOf rom9))) = true ∧
    runPos? (runN 3 (.running (mOf rom9))) = some 65536 ∧
    (65536 : Nat) / 2 = 32768 ∧
    ¬ ((32768 : Nat) ≤ 32767) := by
  refine ⟨rfl, rfl, rfl, by decide, by decide⟩

/-- C9 amended: in every machine state reachable from a machine
constructed from a valid ROM, the byte cursor is even (the IP is
word-aligned), and the word index is at most 65536 — the claimed bound
32767 can be exceeded by an instruction ending at the top of memory. -/
theorem C9_ip_invariant_amended :
    ∀ (rom : List Nat) (m0 m : Machine),
      Machine.new rom = .ok m0 → Reachable m0 m →
      m.memory.pos % 2 = 0 ∧ m.memory.pos / 2 ≤ 65536 := by
  intro rom m0 m h0 hr
  obtain ⟨p1, p2, p3, p4⟩ := reachable_memInv (machineNew_memInv h0) hr
  exact ⟨p1, by omega⟩

/-- C9 witness: the invariant instantiated at the fresh machine of the
counterexample ROM. -/
theorem C9_witness :
    Machine.new rom9 = .ok (mOf rom9) ∧
    (mOf rom9).memory.pos % 2 = 0 ∧ (mOf rom9).memory.pos / 2 ≤ 65536 := by
  refine ⟨rfl, ?_, ?_⟩
  · exact (C9_ip_invariant_amended rom9 (mOf rom9) (mOf rom9) rfl .refl).1
  · exact (C9_ip_invariant_amended rom9 (mOf rom9) (mOf rom9) rfl .refl).2

/-! Section: C6 -/

/-- C6: breakpoint evaluation on a running machine returns the first
breakpoint in insertion order whose condition holds, the condition being
exactly as the specification words it (`specTriggered`): `At a` iff
`IP = a`, `Read t`/`Write t` iff the raw or the decoded opcode reads,
resp. writes `t`, and `Access t` the union of the two; first-match is
witnessed by the split of the breakpoint list. -/
theorem C6_breakpoint_first_match :
    ∀ (d : Debugger) (m : Machine) (op : OpCode) (dop : DecodedOpCode) (m2 : Machine),
      d.state = .Running m →
      m.peekInstr = (.ok (op, dop), m2) →
      d.triggeredBreakpoint =
        (.ok ((d.breakpoints.find? fun bp => specTriggered bp m2.memory.ipWord op dop).map
          .Triggered), { d with state := .Running m2 }) ∧
      (∀ bp,
        d.breakpoints.find? (fun bp => specTriggered bp m2.memory.ipWord op dop) = some bp →
        specTriggered bp m2.memory.ipWord op dop = true ∧
        ∃ l1 l2, d.breakpoints = l1 ++ bp :: l2 ∧
          ∀ x ∈ l1, specTriggered x m2.memory.ipWord op dop = false) := by
  intro d m op dop m2 hs hp
  have hfun : (fun bp => Breakpoint.isTriggered bp m2.memory.ipWord op dop) =
      (fun bp => specTriggered bp m2.memory.ipWord op dop) :=
    funext fun bp => isTriggered_eq_spec bp m2.memory.ipWord op dop
  constructor
  · simp only [Debugger.triggeredBreakpoint, hs, hp]
    rw [hfun]
  · intro bp hfind
    obtain ⟨hptrue, l1, l2, heq, hall⟩ := find?_eq_some_split hfind
    exact ⟨hptrue, l1, l2, heq, hall⟩

/-- Debugger with breakpoints `r r0` then `@ 0` over the fresh
register-arithmetic machine. -/
def d6c : Debugger :=
  { state := .Running (mOf rom2), breakpoints := [.Read (.Reg 0), .At 0] }

/-- C6 witness: on `d6c` the first matching breakpoint is `At 0` (the
read breakpoint does not match `set r0 3`). -/
theorem C6_witness :
    d6c.triggeredBreakpoint = (.ok (some (.Triggered (.At 0))),
      { d6c with state := .Running ((mOf rom2).peekInstr).2 }) ∧
    (d6c.breakpoints.find? fun bp =>
      specTriggered bp (((mOf rom2).peekInstr).2.memory.ipWord)
        (.Set 0 (.Literal 3)) (.Set 0 3)) = some (.At 0) := by
  have h := (C6_breakpoint_first_match d6c (mOf rom2) (.Set 0 (.Literal 3)) (.Set 0 3)
    ((mOf rom2).peekInstr).2 rfl rfl).1
  refine ⟨?_, by decide⟩
  rw [h]
  rfl

/-! Section: C7 -/

/-- Debugger with the single breakpoint `w r2` over the fresh
register-arithmetic machine. -/
def d7c : Debugger :=
  { state := .Running (mOf rom2), breakpoints := [.Write (.Reg 2)] }

/-- C7: whenever the continue loop stops with a triggered breakpoint, the
yielded state came out of a *successful* peek of the post-step machine:
the triggering instruction is the next, not yet executed one, and the
yielded machine has the same registers, stack and memory bytes as the
machine the breakpoint was evaluated on — so a watched target still holds
its pre-instruction value.  Concretely, with `b w r2` set, the program
`1 32768 3 | 1 32769 4 | 9 32770 32768 32769 | 0` breaks with IP at the
add (word 6) and r2 still 0; resuming runs to the halt with r2 = 7. -/
theorem C7_break_before_write :
    (∀ (fuel : Nat) (d d' : Debugger) (bp : Breakpoint),
      continueLoop fuel d = some (.ok (d', .Triggered bp)) →
      ∃ (m1 m2 : Machine) (op : OpCode) (dop : DecodedOpCode),
        d'.state = .Running m2 ∧
        m1.peekInstr = (.ok (op, dop), m2) ∧
        bp.isTriggered m2.memory.ipWord op dop = true ∧
        m2.registers = m1.registers ∧ m2.stack = m1.stack ∧
        m2.memory.data = m1.memory.data) ∧
    (∃ d' : Debugger,
      continueLoop 10 d7c = some (.ok (d', .Triggered (.Write (.Reg 2)))) ∧
      ∃ m' : Machine, d'.state = .Running m' ∧ m'.registers 2 = 0 ∧
        m'.memory.ipWord = 6 ∧
        ∃ d'' : Debugger, continueLoop 10 d' = some (.ok (d'', .Halted)) ∧
          d''.state.machine.registers 2 = 7) := by
  constructor
  · intro fuel
    induction fuel with
    | zero =>
      intro d d' bp h
      simp [continueLoop] at h
    | succ n ih =>
      intro d d' bp h
      unfold continueLoop at h
      split at h
      · exact absurd h (by simp)
      · exact absurd h (by simp)
      next d1 hsv =>
        split at h
        next r d2 htb =>
          simp only [Option.some.injEq, Except.ok.injEq, Prod.mk.injEq] at h
          obtain ⟨hd2, hr⟩ := h
          subst hd2
          subst hr
          unfold Debugger.triggeredBreakpoint at htb
          split at htb
          next m1 hst =>
            split at htb
            next e mp hpk =>
              injection htb with t1 t2
              exact absurd t1 (by simp)
            next op dop mp hpk =>
              injection htb with t1 t2
              injection t1 with t1
              rcases hfind : (d1.breakpoints.find? fun bp2 =>
                  bp2.isTriggered mp.memory.ipWord op dop) with _ | b
              · rw [hfind] at t1
                exact absurd t1 (by simp)
              · rw [hfind, Option.map_some'] at t1
                injection t1 with t1
                injection t1 with t1
                subst t1
                obtain ⟨f1, f2, f3, f4⟩ := peekInstr_ok_frame hpk
                have hptrue0 := List.find?_some hfind
                have hptrue : b.isTriggered mp.memory.ipWord op dop = true := hptrue0
                refine ⟨m1, mp, op, dop, ?_, hpk, hptrue, f1, f2, f4⟩
                rw [← t2]
          next m1 r1 hst =>
            injection htb with t1 t2
            simp at t1
          next m1 hst =>
            injection htb with t1 t2
            simp at t1
        next d2 htb => exact ih d2 d' bp h
        next e d2 htb => exact ih d2 d' bp h
  · exact ⟨_, rfl, _, rfl, rfl, rfl, _, rfl, rfl⟩

/-- The debugger state at which the C7 scenario's continue loop stops. -/
def c7d' : Debugger :=
  match continueLoop 10 d7c with
  | some (.ok (d', _)) => d'
  | _ => d7c

/-- C7 witness: the general part instantiated on the scenario stop. -/
theorem C7_witness :
    continueLoop 10 d7c = some (.ok (c7d', .Triggered (.Write (.Reg 2)))) ∧
    (∃ (m1 m2 : Machine) (op : OpCode) (dop : DecodedOpCode),
      c7d'.state = .Running m2 ∧
      m1.peekInstr = (.ok (op, dop), m2) ∧
      (Breakpoint.Write (.Reg 2)).isTriggered m2.memory.ipWord op dop = true ∧
      m2.registers = m1.registers ∧ m2.stack = m1.stack ∧
      m2.memory.data = m1.memory.data) :=
  ⟨rfl, C7_break_before_write.1 10 d7c c7d' (.Write (.Reg 2)) rfl⟩

/-! Section: C10 -/

/-- C10: when the next instruction is mod with resolved divisor 0, `step`
performs the unguarded `val1 % val2` — it does not return an error result
(the embedding is undefined there, `none`, modelling the Rust division
panic); with a nonzero divisor the same step succeeds, so `step` is total
exactly under the nonzero-divisor precondition. -/
theorem C10_mod_by_zero_unguarded :
    (∀ (m : Machine) (op : OpCode) (mem2 : Memory) (reg : Fin 8) (v1 : Nat),
      Memory.fetchOp m.memory = (.ok op, mem2) →
      op.decode m.registers m.stack.head? = .ok (.Mod reg v1 0) →
      m.step = none) ∧
    (∀ (m : Machine) (op : OpCode) (mem2 : Memory) (reg : Fin 8) (v1 v2 : Nat),
      v2 ≠ 0 →
      Memory.fetchOp m.memory = (.ok op, mem2) →
      op.decode m.registers m.stack.head? = .ok (.Mod reg v1 v2) →
      m.step = some (.ok (.Continue
        { m with memory := mem2,
                 registers := m.registers.writeU16 reg (v1 % v2 % 32768) }))) := by
  constructor
  · intro m op mem2 reg v1 hf hd
    simp [Machine.step, hf, hd, Machine.execInstr]
  · intro m op mem2 reg v1 v2 hv2 hf hd
    simp only [Machine.step, hf, hd, Machine.execInstr]
    rw [if_neg hv2]

def c10aOp : OpCode := .Mod 0 (.Literal 5) (.Literal 0)

def c10bOp : OpCode := .Mod 0 (.Literal 7) (.Literal 3)

def c10bMem2 : Memory := (Memory.fetchOp (mOf c10bRom).memory).2

/-- C10 witness: `mod r0, 5, 0` has no defined step while `mod r0, 7, 3`
steps to a Continue outcome. -/
theorem C10_witness :
    (mOf c10aRom).step = none ∧
    (mOf c10bRom).step = some (.ok (.Continue
      { mOf c10bRom with
        memory := c10bMem2,
        registers := (mOf c10bRom).registers.writeU16 0 (7 % 3 % 32768) })) :=
  ⟨C10_mod_by_zero_unguarded.1 (mOf c10aRom) c10aOp
      (Memory.fetchOp (mOf c10aRom).memory).2 0 5 rfl rfl,
   C10_mod_by_zero_unguarded.2 (mOf c10bRom) c10bOp c10bMem2 0 7 3 (by decide) rfl rfl⟩

/-! Section: C3 and C8: save/load -/

/-- The machine after one step of `set r0 7`: r0 = 7, IP at word 3, memory
words `[1, 32768, 7]`. -/
def m8 : Machine :=
  match runN 1 (.running (mOf rom8)) with
  | some (.ok s) => s.machine
  | _ => mOf rom8

def c3bytes : List Nat :=
  match m8.asBytes with
  | some l => l
  | none => []

def c3loaded : Machine :=
  match Machine.tryFrom c3bytes with
  | some (.ok mm) => mm
  | _ => mOf rom8

/-- C3: save followed by load does *not* round-trip.  Both `as_bytes` and
`try_from` seek the `mem_bytes/2` padding from byte offset 4 (the cursor
never moved past the slice-copied image), so the register block lands
inside the image region: registers, stack and IP survive, but the loaded
memory words 1 and 2 become 1792 and 0 instead of 32768 and 7, and after
the same subsequent one-step sequence (the halt at word 3) the final
memories differ — behaviour is not byte-identical. -/
theorem C3_saveload_corrupts_memory :
    Machine.new rom8 = .ok (mOf rom8) ∧
    m8.asBytes = some c3bytes ∧
    Machine.tryFrom c3bytes = some (.ok c3loaded) ∧
    c3loaded.registers 0 = 7 ∧ m8.registers 0 = 7 ∧
    c3loaded.memory.ipWord = 3 ∧ m8.memory.ipWord = 3 ∧
    c3loaded.stack = [] ∧ m8.stack = [] ∧
    m8.memory.wordAt 1 = 32768 ∧ c3loaded.memory.wordAt 1 = 1792 ∧
    m8.memory.wordAt 2 = 7 ∧ c3loaded.memory.wordAt 2 = 0 ∧
    runIsHalted? (runN 1 (.running m8)) = true ∧
    runIsHalted? (runN 1 (.running c3loaded)) = true ∧
    runWordAt? (runN 1 (.running m8)) 1 = some 32768 ∧
    runWordAt? (runN 1 (.running c3loaded)) 1 = some 1792 ∧
    (32768 : Nat) ≠ 1792 := by
  refine ⟨rfl, rfl, rfl, rfl, rfl, rfl, rfl, rfl, rfl, rfl, rfl, rfl, rfl, rfl, rfl,
    rfl, rfl, by decide⟩

def d8 : Debugger := { state := .Running m8, breakpoints := [] }

def c8actual : List Nat :=
  match d8.saveVm with
  | some l => l
  | none => []

/-- Modelled from the spec: the save layout of §6.3 exactly as the claim
describes it — one state-tag byte, one stalled-register byte, the IP as a
2-byte little-endian word index, a 2-byte mem_bytes count, the
mem_bytes-byte memory image, `mem_bytes/2` bytes of padding, the eight
registers (16 bytes little-endian), a 2-byte stack_bytes count, and the
stack entries bottom-first. -/
def specSaveLayout (d : Debugger) : List Nat :=
  let m := d.state.machine
  let tagReg : Nat × Nat :=
    match d.state with
    | .Stalled _ r => (0, r.val)
    | .Running _ => (1, 0)
    | .Halted _ => (2, 0)
  let memBytes := m.memory.usedBytes
  tagReg.1 :: tagReg.2 ::
    (u16le m.memory.ipWord ++ u16le memBytes ++
      ((List.range memBytes).map m.memory.data) ++
      List.replicate (memBytes / 2) 0 ++
      ((List.range 8).map fun j => u16le (m.registers j)).flatten ++
      u16le (m.stack.length * 2) ++
      (m.stack.reverse.map u16le).flatten)

def c8spec : List Nat := specSaveLayout d8

/-- C8: the bytes `save_vm` actually produces diverge from the claimed
layout.  The `seek(Current(mem_bytes/2))` in `as_bytes` runs while the
cursor is still at offset 4 (the image was copied through a slice, not
the cursor), so the registers are written at offset `6 + mem_bytes/2` —
inside the image — and the file is `mem_bytes/2` bytes shorter than the
claimed layout.  At the failing input (the machine of C3, mem_bytes = 6):
the actual save is 30 bytes with the low byte of r0 (7) at offset 9,
where the claimed 33-byte layout still has the image byte 128. -/
theorem C8_save_layout_divergence :
    d8.saveVm = some c8actual ∧
    c8actual =
      [1, 0, 3, 0, 6, 0, 1, 0, 0, 7, 0, 0, 0, 0, 0, 0, 0, 0, 0, 0, 0, 0, 0, 0,
        0, 0, 0, 0, 0, 0] ∧
    c8spec =
      [1, 0, 3, 0, 6, 0, 1, 0, 0, 128, 7, 0, 0, 0, 0, 7, 0, 0, 0, 0, 0, 0, 0, 0,
        0, 0, 0, 0, 0, 0, 0, 0, 0] ∧
    c8actual.length = 30 ∧
    c8spec.length = 33 ∧
    c8actual.getD 9 0 = 7 ∧
    c8spec.getD 9 0 = 128 ∧
    c8actual ≠ c8spec := by
  refine ⟨rfl, by decide, by decide, by decide, by decide, by decide, by decide, by decide⟩

end Synacor
